import Mathlib

/-!
Verification development for the influx-converter repository
(src/influx-converter.go).  The program is a batched ETL pipeline: it
queries a source InfluxDB, reshapes wide rows into tagged points, chunks
them into batches and writes each batch to a target InfluxDB.

Shallow embedding conventions:
* JSON scalar values coming back from the store are modelled by
  `JsonValue`; numeric JSON values (Go `json.Number`) carry their decimal
  token as a `String`.
* `json.Number.Int64` (i.e. `strconv.ParseInt(s, 10, 64)`) is modelled by
  `int64Parse`; `json.Number.Float64` (i.e. `strconv.ParseFloat(s, 64)`)
  is modelled by `float64Parse`, which validates the decimal-literal
  syntax and on success returns the token itself (the floating-point
  value is represented by its decimal token; bit-level rounding is out of
  scope).  Special literals (inf, nan, hex floats) never occur inside a
  `json.Number` and are not modelled.
* A Go `panic` (failed type assertion, index out of range) is modelled as
  an explicit outcome (`ConvErr.panicked`, `RunOutcome.panicked`),
  distinct from an error value returned through the `error` result
  (`ConvErr.decodeError`) and from `log.Fatal` (`RunOutcome.fatal`).
* Go maps are modelled as association lists; map assignment is
  `mapInsert`.  Iteration order over `defaultTags` is determinized to its
  textual order (the final map contents do not depend on it).
-/

/-- A JSON scalar as decoded by the InfluxDB client with `UseNumber`:
numbers arrive as `json.Number` (a decimal token), everything else is a
non-number. -/
inductive JsonValue where
  | num (s : String)
  | str (s : String)
  | boolv (b : Bool)
  | nullv
deriving DecidableEq, Repr

/-- Message of a Go index-out-of-range runtime panic. -/
def oorMsg : String := "runtime error: index out of range"

/-- Message of a Go failed-type-assertion runtime panic
(`values[i].(json.Number)` on a non-number). -/
def castMsg : String := "interface conversion: interface is not json.Number"

/-- Decimal digit value of a character. -/
def digitVal (c : Char) : Nat := c.toNat - 48

/-- Model of `strconv.ParseInt(s, 10, 64)` as called by
`json.Number.Int64`: optional sign, one or more decimal digits, value
within the int64 range; anything else (in particular a fractional literal
such as "1.5") fails. -/
def int64Parse (s : String) : Option Int :=
  let cs := s.toList
  let signed : Int × List Char :=
    match cs with
    | '+' :: rest => (1, rest)
    | '-' :: rest => (-1, rest)
    | _ => (1, cs)
  if signed.2 ≠ [] ∧ signed.2.all Char.isDigit then
    let n : Nat := signed.2.foldl (fun a c => a * 10 + digitVal c) 0
    let v : Int := signed.1 * n
    if -(2 ^ 63) ≤ v ∧ v < 2 ^ 63 then some v else none
  else none

/-- Mantissa syntax of a Go decimal float literal: digits, optionally
with one dot, at least one digit overall. -/
def mantissaOk (cs : List Char) : Bool :=
  let a := cs.takeWhile Char.isDigit
  let rest := cs.dropWhile Char.isDigit
  match rest with
  | [] => !a.isEmpty
  | '.' :: b => b.all Char.isDigit && !(a.isEmpty && b.isEmpty)
  | _ => false

/-- Exponent-part syntax of a Go decimal float literal (may be absent). -/
def expPartOk (cs : List Char) : Bool :=
  match cs with
  | [] => true
  | e :: rest =>
    (e == 'e' || e == 'E') &&
    (let rest2 := match rest with
      | '+' :: r => r
      | '-' :: r => r
      | _ => rest
     !rest2.isEmpty && rest2.all Char.isDigit)

/-- Syntactic validity of a decimal float literal, per
`strconv.ParseFloat` restricted to the literals a `json.Number` can
hold. -/
def floatSyntaxOk (s : String) : Bool :=
  let cs := s.toList
  let cs2 :=
    match cs with
    | '+' :: r => r
    | '-' :: r => r
    | _ => cs
  let mant := cs2.takeWhile (fun c => c != 'e' && c != 'E')
  let rest := cs2.dropWhile (fun c => c != 'e' && c != 'E')
  mantissaOk mant && expPartOk rest

/-- Model of `json.Number.Float64`: validates the token and represents
the parsed value by the token itself. -/
def float64Parse (s : String) : Option String :=
  if floatSyntaxOk s then some s else none

/-- The process-wide Default Tag Set (`defaultTags` in the source), as an
association list in textual order. -/
def defaultTags : List (String × String) :=
  [("job", "pronestheus"),
   ("instance", "pronestheus:2112"),
   ("name", "Living-Room"),
   ("id", "JyHyG8n7kBXBV0_KHqQhNsmUnpmzy3o_")]

/-- Go map assignment `m[k] = v` on an association-list model: overwrite
the existing binding for `k`, or append a new one. -/
def mapInsert (m : List (String × String)) (k v : String) : List (String × String) :=
  if (m.lookup k).isSome then
    m.map (fun p => if p.1 = k then (k, v) else p)
  else
    m ++ [(k, v)]

/-- One output datum (`client.Point`): metric name, tags, the "value"
field (its decimal token) and a Unix-seconds timestamp. -/
structure Point where
  measurement : String
  tags : List (String × String)
  value : String
  time : Int
deriving DecidableEq, Repr

/-- `newPoint` from the source: tags start as the single-binding map
`__name__ ↦ name` and every binding of `defaultTags` is then assigned
over it. -/
def newPoint (name : String) (timestamp : Int) (value : String) : Point :=
  { measurement := name
    tags := defaultTags.foldl (fun m kv => mapInsert m kv.1 kv.2) [("__name__", name)]
    value := value
    time := timestamp }

/-- Error outcomes of `Convert`: a Go `error` returned through the
result (`decodeError`, from a failed numeric parse) or a runtime panic
(failed type assertion / out-of-range index). -/
inductive ConvErr where
  | decodeError (msg : String)
  | panicked (msg : String)
deriving DecidableEq, Repr

/-- `(i, columns[i])` for `i = 1 .. len(columns)-1`, the index range of
the inner loop of `Convert` (column 0, the timestamp, is skipped). -/
def idxCols (cols : List String) : List (Nat × String) := cols.enum.drop 1

/-- The inner loop of `Convert` for one row, already holding the decoded
timestamp `ts`: for each `(i, name)` read `values[i]` (panic when out of
range), assert it is a `json.Number` (panic otherwise), parse it as a
float (a Go `error` aborts with it) and build one point per column. -/
def convertRow (ts : Int) (values : List JsonValue) : List (Nat × String) → Except ConvErr (List Point)
  | [] => Except.ok []
  | p :: rest =>
    match values[p.1]? with
    | none => Except.error (ConvErr.panicked oorMsg)
    | some (JsonValue.num s) =>
      match float64Parse s with
      | none => Except.error (ConvErr.decodeError s)
      | some tok =>
        match convertRow ts values rest with
        | Except.error e => Except.error e
        | Except.ok ps => Except.ok (newPoint p.2 ts tok :: ps)
    | some _ => Except.error (ConvErr.panicked castMsg)

/-- `Convert` from the source: for each row read `values[0]` (panic when
the row is empty), assert `json.Number` (panic otherwise), parse it as an
int64 Unix-seconds timestamp (a failed parse returns the Go `error`,
aborting the whole batch with no points), then run the per-row column
loop, accumulating all points in row order. -/
def Convert (cols : List String) : List (List JsonValue) → Except ConvErr (List Point)
  | [] => Except.ok []
  | values :: rest =>
    match values[0]? with
    | none => Except.error (ConvErr.panicked oorMsg)
    | some (JsonValue.num s) =>
      match int64Parse s with
      | none => Except.error (ConvErr.decodeError s)
      | some t =>
        match convertRow t values (idxCols cols) with
        | Except.error e => Except.error e
        | Except.ok ps =>
          match Convert cols rest with
          | Except.error e => Except.error e
          | Except.ok qs => Except.ok (ps ++ qs)
    | some _ => Except.error (ConvErr.panicked castMsg)

/-- One step bound of the batching loop of `RunOnTable`
(`for *batchSize < len(result.Values) { ... }`), totalized by fuel: with
`B ≥ 1` a fuel of `rows.length` is never exhausted (the Go loop itself
diverges for `B = 0`, a configuration no claim concerns). -/
def splitGo (B : Nat) : Nat → List α → List (List α)
  | 0, rows => [rows]
  | fuel + 1, rows =>
    if B < rows.length then
      rows.take B :: splitGo B fuel (rows.drop B)
    else
      [rows]

/-- The Batcher: the reslicing loop of `RunOnTable` lines 121–125.  While
more than `B` rows remain, move the first `B` rows into a new chunk;
finally append whatever remains (an empty chunk exactly when the input
was empty). -/
def splitBatches (B : Nat) (rows : List α) : List (List α) :=
  splitGo B rows.length rows

lemma splitGo_flatten (B : Nat) : ∀ (fuel : Nat) (rows : List α),
    (splitGo B fuel rows).flatten = rows := by
  intro fuel
  induction fuel with
  | zero => intro rows; simp [splitGo]
  | succ n ih =>
    intro rows
    by_cases h : B < rows.length
    · simp [splitGo, h, ih]
    · simp [splitGo, h]

lemma splitBatches_flatten (B : Nat) (rows : List α) :
    (splitBatches B rows).flatten = rows :=
  splitGo_flatten B rows.length rows

lemma splitGo_chunk_le (B : Nat) : ∀ (fuel : Nat) (rows : List α),
    rows.length ≤ B * (fuel + 1) →
    ∀ c ∈ splitGo B fuel rows, c.length ≤ B := by
  intro fuel
  induction fuel with
  | zero =>
    intro rows hlen c hc
    simp [splitGo] at hc
    subst hc
    simpa using hlen
  | succ n ih =>
    intro rows hlen c hc
    by_cases h : B < rows.length
    · simp only [splitGo, if_pos h, List.mem_cons] at hc
      rcases hc with hc | hc
      · subst hc
        simp [List.length_take]
      · refine ih (rows.drop B) ?_ c hc
        have hexp : B * (n + 1 + 1) = B * (n + 1) + B := by ring
        simp only [List.length_drop]
        omega
    · simp only [splitGo, if_neg h, List.mem_singleton] at hc
      subst hc
      omega

lemma splitBatches_chunk_le (B : Nat) (rows : List α) (hB : 1 ≤ B) :
    ∀ c ∈ splitBatches B rows, c.length ≤ B := by
  refine splitGo_chunk_le B rows.length rows ?_
  nlinarith [rows.length.zero_le]

lemma splitGo_countP_le (B : Nat) : ∀ (fuel : Nat) (rows : List α),
    (splitGo B fuel rows).countP (fun c => decide (c.length < B)) ≤ 1 := by
  intro fuel
  induction fuel with
  | zero =>
    intro rows
    simp [splitGo, List.countP_cons]
    split <;> simp
  | succ n ih =>
    intro rows
    by_cases h : B < rows.length
    · have htake : (rows.take B).length = B := by
        simp [List.length_take]
        omega
      simp only [splitGo, if_pos h, List.countP_cons, htake]
      simpa using ih (rows.drop B)
    · simp [splitGo, if_neg h, List.countP_cons]
      split <;> simp

lemma splitBatches_countP_le (B : Nat) (rows : List α) :
    (splitBatches B rows).countP (fun c => decide (c.length < B)) ≤ 1 :=
  splitGo_countP_le B rows.length rows

lemma splitBatches_nil (B : Nat) : splitBatches B ([] : List α) = [[]] := by
  simp [splitBatches, splitGo]

lemma splitBatches_mem (B : Nat) (rows : List α) (c : List α)
    (hc : c ∈ splitBatches B rows) : ∀ v ∈ c, v ∈ rows := by
  intro v hv
  have : v ∈ (splitBatches B rows).flatten := List.mem_flatten.mpr ⟨c, hc, hv⟩
  simpa [splitBatches_flatten] using this

/-- Claim C1: for every row set and every batch size B ≥ 1, the chunking
loop of `RunOnTable` produces contiguous chunks whose concatenation is
exactly the input, each chunk of length at most B, with at most one chunk
shorter than B; on an empty row set it produces a single empty chunk
(hence zero or one). -/
theorem batcher_spec (B : Nat) (rows : List (List JsonValue)) (hB : 1 ≤ B) :
    (splitBatches B rows).flatten = rows ∧
    (∀ c ∈ splitBatches B rows, c.length ≤ B) ∧
    (splitBatches B rows).countP (fun c => decide (c.length < B)) ≤ 1 ∧
    (rows = [] → splitBatches B rows = [[]]) := by
  refine ⟨splitBatches_flatten B rows, splitBatches_chunk_le B rows hB,
    splitBatches_countP_le B rows, ?_⟩
  intro h
  subst h
  exact splitBatches_nil B

/-- Witness for C1 at batch size 2 and three concrete rows. -/
theorem batcher_spec_witness :
    (splitBatches 2 [[JsonValue.num "1"], [JsonValue.num "2"], [JsonValue.num "3"]]).flatten
        = [[JsonValue.num "1"], [JsonValue.num "2"], [JsonValue.num "3"]] ∧
    (∀ c ∈ splitBatches 2 [[JsonValue.num "1"], [JsonValue.num "2"], [JsonValue.num "3"]], c.length ≤ 2) ∧
    (splitBatches 2 [[JsonValue.num "1"], [JsonValue.num "2"], [JsonValue.num "3"]]).countP
        (fun c => decide (c.length < 2)) ≤ 1 ∧
    ([[JsonValue.num "1"], [JsonValue.num "2"], [JsonValue.num "3"]] = ([] : List (List JsonValue)) →
      splitBatches 2 [[JsonValue.num "1"], [JsonValue.num "2"], [JsonValue.num "3"]] = [[]]) :=
  batcher_spec 2 [[JsonValue.num "1"], [JsonValue.num "2"], [JsonValue.num "3"]] (by decide)

/-- Outcome of one `RunOnTable` invocation: normal return, `log.Fatal`
(process exit with a logged error) or a runtime panic. -/
inductive RunOutcome where
  | ok
  | fatal (msg : String)
  | panicked (msg : String)
deriving DecidableEq, Repr

/-- Observable trace of one `RunOnTable` invocation: how many times
`Convert` was invoked, the argument of every `WritePoints` invocation in
order, and the outcome. -/
structure TableRun where
  convertCalls : Nat
  writeCalls : List (List Point)
  outcome : RunOutcome
deriving DecidableEq, Repr

/-- The per-batch loop of `RunOnTable` (lines 127–141), starting at batch
index `i`: convert the batch (`log.Fatal` on a returned decode error, a
panic propagates), then invoke `WritePoints`; `writeOk i` tells whether
the target store accepts write number `i` (`log.Fatal` otherwise). -/
def runBatches (cols : List String) (writeOk : Nat → Bool) : Nat → List (List (List JsonValue)) → TableRun
  | _, [] => ⟨0, [], RunOutcome.ok⟩
  | i, b :: bs =>
    match Convert cols b with
    | Except.error (ConvErr.decodeError m) => ⟨1, [], RunOutcome.fatal m⟩
    | Except.error (ConvErr.panicked m) => ⟨1, [], RunOutcome.panicked m⟩
    | Except.ok pts =>
      if writeOk i then
        let r := runBatches cols writeOk (i + 1) bs
        ⟨r.convertCalls + 1, pts :: r.writeCalls, r.outcome⟩
      else
        ⟨1, [pts], RunOutcome.fatal "write error"⟩

/-- The cell `result.Values[0][1]` that `RunOnTable` reads from the
count-query result (line 110): `none` models the out-of-range panic. -/
def countCell (countValues : List (List JsonValue)) : Option JsonValue :=
  match countValues[0]? with
  | none => none
  | some r => r[1]?

/-- `RunOnTable` (lines 110–141) after both the count query and the data
query have returned successfully: read the count cell (panicking when the
count result has no row or its first row has fewer than two values — the
value itself is only logged), split the data rows into batches of `B`,
and run the convert/write loop.  `countValues` is the count query's
`Values`, `cols`/`rows` are the data query's `Columns`/`Values`. -/
def runOnTable (B : Nat) (countValues : List (List JsonValue)) (cols : List String)
    (rows : List (List JsonValue)) (writeOk : Nat → Bool) : TableRun :=
  match countCell countValues with
  | none => ⟨0, [], RunOutcome.panicked oorMsg⟩
  | some _ => runBatches cols writeOk 0 (splitBatches B rows)

/-- One series of an InfluxDB query response (`models.Row`): column names
plus value rows. -/
structure SeriesData where
  columns : List String
  values : List (List JsonValue)
deriving DecidableEq, Repr

/-- One element of `response.Results`: its series and its own error
field. -/
structure QueryResultItem where
  series : List SeriesData
  err : Option String
deriving DecidableEq, Repr

/-- An InfluxDB query response: results plus a top-level error field. -/
structure Response where
  results : List QueryResultItem
  err : Option String
deriving DecidableEq, Repr

/-- `Response.Error()` of the client library: the top-level error if set,
else the first result-level error. -/
def responseError (r : Response) : Option String :=
  match r.err with
  | some e => some e
  | none => r.results.findSome? (fun it => it.err)

/-- How a `Query` call ends: a returned series, a returned Go error
(transport failure or store-reported error), the `log.Fatalf` shape
check firing, or a runtime panic. -/
inductive QueryOutcome where
  | ok (row : SeriesData)
  | queryError (msg : String)
  | fatalExit (results : Nat) (series : Nat)
  | panicked (msg : String)
deriving DecidableEq, Repr

/-- `Query` (lines 144–175).  The argument is the transport result:
`Except.error e` models a failed network call.  On a response, a non-nil
`response.Error()` is returned as the Go error; then the shape check
`len(Results) != 1 && len(Results[0].Series) != 1` runs with Go's
left-to-right evaluation and short-circuiting (`Results[0]` panics on an
empty result list), `log.Fatalf`-ing when both conjuncts hold; finally
`Results[0].Series[0]` is returned (panicking when the series list is
empty). -/
def Query (call : Except String Response) : QueryOutcome :=
  match call with
  | Except.error e => QueryOutcome.queryError e
  | Except.ok resp =>
    match responseError resp with
    | some e => QueryOutcome.queryError e
    | none =>
      if resp.results.length ≠ 1 then
        match resp.results[0]? with
        | none => QueryOutcome.panicked oorMsg
        | some r0 =>
          if r0.series.length ≠ 1 then
            QueryOutcome.fatalExit resp.results.length r0.series.length
          else
            match r0.series[0]? with
            | some s => QueryOutcome.ok s
            | none => QueryOutcome.panicked oorMsg
      else
        match resp.results[0]? with
        | none => QueryOutcome.panicked oorMsg
        | some r0 =>
          match r0.series[0]? with
          | some s => QueryOutcome.ok s
          | none => QueryOutcome.panicked oorMsg

/-- Does `values[0]` hold a `json.Number` that parses as int64?  (the
timestamp decode of one row succeeds) -/
def tsDecodes (values : List JsonValue) : Bool :=
  match values[0]? with
  | some (JsonValue.num s) => (int64Parse s).isSome
  | _ => false

/-- Does `values[i]` hold a `json.Number` that parses as float64? -/
def valDecodes (values : List JsonValue) (i : Nat) : Bool :=
  match values[i]? with
  | some (JsonValue.num s) => (float64Parse s).isSome
  | _ => false

/-- Every element of the row that `Convert` inspects decodes
successfully. -/
def rowDecodes (cols : List String) (values : List JsonValue) : Bool :=
  tsDecodes values && (idxCols cols).all (fun p => valDecodes values p.1)

/-- Is `values[i]` present and a `json.Number` (of any content)? -/
def isNumAt (values : List JsonValue) (i : Nat) : Bool :=
  match values[i]? with
  | some (JsonValue.num _) => true
  | _ => false

/-- Every element of the row that `Convert` inspects is present and is a
`json.Number` (its parse may still fail). -/
def rowNums (cols : List String) (values : List JsonValue) : Bool :=
  isNumAt values 0 && (idxCols cols).all (fun p => isNumAt values p.1)

/-- The row's decoded epoch-seconds timestamp (meaningful when
`tsDecodes`). -/
def rowTs (values : List JsonValue) : Int :=
  match values[0]? with
  | some (JsonValue.num s) => (int64Parse s).getD 0
  | _ => 0

/-- The decimal token held at `values[i]` (meaningful when the element is
a `json.Number`). -/
def elemTok (values : List JsonValue) (i : Nat) : String :=
  match values[i]? with
  | some (JsonValue.num s) => s
  | _ => ""

/-- Modelled from the spec's words (§4.2 Row Transformer), for comparison
with `Convert`: rows in input order; within a row one point per column
index 1..len(columns)-1 left-to-right, named after its column, carrying
the row's timestamp and the value at its index. -/
def specConvert (cols : List String) (batch : List (List JsonValue)) : List Point :=
  batch.flatMap fun values =>
    (idxCols cols).map fun p => newPoint p.2 (rowTs values) (elemTok values p.1)

lemma newPoint_tags (name : String) (ts : Int) (v : String) :
    (newPoint name ts v).tags = ("__name__", name) :: defaultTags := by
  simp [newPoint, defaultTags, mapInsert, List.lookup]

lemma convertRow_ok (ts : Int) (values : List JsonValue) :
    ∀ l : List (Nat × String), (∀ p ∈ l, valDecodes values p.1 = true) →
    convertRow ts values l =
      Except.ok (l.map fun p => newPoint p.2 ts (elemTok values p.1)) := by
  intro l
  induction l with
  | nil => intro _; simp [convertRow]
  | cons p rest ih =>
    intro h
    have hp := h p (List.mem_cons_self p rest)
    have hrest := ih (fun q hq => h q (List.mem_cons_of_mem p hq))
    unfold valDecodes at hp
    match hv : values[p.1]? with
    | none => rw [hv] at hp; simp at hp
    | some (JsonValue.str s) => rw [hv] at hp; simp at hp
    | some (JsonValue.boolv b) => rw [hv] at hp; simp at hp
    | some JsonValue.nullv => rw [hv] at hp; simp at hp
    | some (JsonValue.num s) =>
      rw [hv] at hp
      have hf : float64Parse s = some s := by
        unfold float64Parse at hp ⊢
        by_cases hs : floatSyntaxOk s = true
        · simp [hs]
        · simp [hs] at hp
      have htok : elemTok values p.1 = s := by simp [elemTok, hv]
      simp [convertRow, hv, hf, hrest, htok]

lemma convert_ok_eq (cols : List String) :
    ∀ batch : List (List JsonValue), (∀ values ∈ batch, rowDecodes cols values = true) →
    Convert cols batch = Except.ok (specConvert cols batch) := by
  intro batch
  induction batch with
  | nil => intro _; simp [Convert, specConvert]
  | cons values rest ih =>
    intro h
    have hrow := h values (List.mem_cons_self values rest)
    have hrest := ih (fun v hv => h v (List.mem_cons_of_mem values hv))
    unfold rowDecodes at hrow
    rw [Bool.and_eq_true] at hrow
    obtain ⟨hts, hall⟩ := hrow
    unfold tsDecodes at hts
    match hv : values[0]? with
    | none => rw [hv] at hts; simp at hts
    | some (JsonValue.str s) => rw [hv] at hts; simp at hts
    | some (JsonValue.boolv b) => rw [hv] at hts; simp at hts
    | some JsonValue.nullv => rw [hv] at hts; simp at hts
    | some (JsonValue.num s) =>
      rw [hv] at hts
      rw [Option.isSome_iff_exists] at hts
      obtain ⟨t, ht⟩ := hts
      have hcr := convertRow_ok t values (idxCols cols)
        (by
          intro p hp
          have := List.all_eq_true.mp hall p hp
          simpa using this)
      have hts2 : rowTs values = t := by simp [rowTs, hv, ht]
      simp [Convert, hv, ht, hcr, hrest, specConvert, hts2]

lemma specConvert_length (cols : List String) (batch : List (List JsonValue)) :
    (specConvert cols batch).length = batch.length * (cols.length - 1) := by
  induction batch with
  | nil => simp [specConvert]
  | cons values rest ih =>
    have hlen : (idxCols cols).length = cols.length - 1 := by
      simp [idxCols, List.enum_length]
    simp only [specConvert, List.flatMap_cons, List.length_append, List.length_map,
      List.length_cons] at ih ⊢
    rw [ih, hlen, Nat.succ_mul]
    exact Nat.add_comm _ _

lemma specConvert_tags (cols : List String) (batch : List (List JsonValue)) :
    ∀ p ∈ specConvert cols batch, p.tags = ("__name__", p.measurement) :: defaultTags := by
  intro p hp
  simp only [specConvert, List.mem_flatMap, List.mem_map] at hp
  obtain ⟨values, _, q, _, hq⟩ := hp
  subst hq
  rw [newPoint_tags]
  rfl

/-- Claim C4: for every batch in which all rows decode successfully,
`Convert` returns exactly the spec-described point list — rows in input
order, within a row one point per column left-to-right from index 1
(hence `len(columns) - 1` points per row), each point named after its
source column, timestamped with the row's element-0 value decoded as
epoch seconds, valued at the parsed element-i token, and tagged with the
Default Tag Set united with a `__name__` binding to the column name
(`specConvert_tags`, with `__name__` absent from the Default Tag Set). -/
theorem convert_spec (cols : List String) (batch : List (List JsonValue))
    (h : ∀ values ∈ batch, rowDecodes cols values = true) :
    Convert cols batch = Except.ok (specConvert cols batch) ∧
    (specConvert cols batch).length = batch.length * (cols.length - 1) ∧
    ∀ p ∈ specConvert cols batch, p.tags = ("__name__", p.measurement) :: defaultTags :=
  ⟨convert_ok_eq cols batch h, specConvert_length cols batch, specConvert_tags cols batch⟩

/-- Witness for C4 on a concrete two-row batch with two value columns. -/
theorem convert_spec_witness :
    Convert ["time", "a", "b"]
        [[JsonValue.num "10", JsonValue.num "1.5", JsonValue.num "2e3"],
         [JsonValue.num "-7", JsonValue.num "0.5", JsonValue.num "3"]] =
      Except.ok (specConvert ["time", "a", "b"]
        [[JsonValue.num "10", JsonValue.num "1.5", JsonValue.num "2e3"],
         [JsonValue.num "-7", JsonValue.num "0.5", JsonValue.num "3"]]) ∧
    (specConvert ["time", "a", "b"]
        [[JsonValue.num "10", JsonValue.num "1.5", JsonValue.num "2e3"],
         [JsonValue.num "-7", JsonValue.num "0.5", JsonValue.num "3"]]).length =
      [[JsonValue.num "10", JsonValue.num "1.5", JsonValue.num "2e3"],
       [JsonValue.num "-7", JsonValue.num "0.5", JsonValue.num "3"]].length *
        (["time", "a", "b"].length - 1) ∧
    ∀ p ∈ specConvert ["time", "a", "b"]
        [[JsonValue.num "10", JsonValue.num "1.5", JsonValue.num "2e3"],
         [JsonValue.num "-7", JsonValue.num "0.5", JsonValue.num "3"]],
      p.tags = ("__name__", p.measurement) :: defaultTags :=
  convert_spec ["time", "a", "b"]
    [[JsonValue.num "10", JsonValue.num "1.5", JsonValue.num "2e3"],
     [JsonValue.num "-7", JsonValue.num "0.5", JsonValue.num "3"]] (by decide)

lemma convertRow_fail (ts : Int) (values : List JsonValue) :
    ∀ l : List (Nat × String), (∀ p ∈ l, isNumAt values p.1 = true) →
    (∃ p ∈ l, valDecodes values p.1 = false) →
    ∃ m, convertRow ts values l = Except.error (ConvErr.decodeError m) := by
  intro l
  induction l with
  | nil => intro _ hex; simp at hex
  | cons p rest ih =>
    intro hnum hex
    have hp := hnum p (List.mem_cons_self p rest)
    unfold isNumAt at hp
    match hv : values[p.1]? with
    | none => rw [hv] at hp; simp at hp
    | some (JsonValue.str s) => rw [hv] at hp; simp at hp
    | some (JsonValue.boolv b) => rw [hv] at hp; simp at hp
    | some JsonValue.nullv => rw [hv] at hp; simp at hp
    | some (JsonValue.num s) =>
      match hf : float64Parse s with
      | none =>
        refine ⟨s, ?_⟩
        simp [convertRow, hv, hf]
      | some tok =>
        have hvd : valDecodes values p.1 = true := by
          simp [valDecodes, hv, hf]
        obtain ⟨q, hq, hqf⟩ := hex
        rcases List.mem_cons.mp hq with hq | hq
        · subst hq; rw [hvd] at hqf; cases hqf
        · obtain ⟨m, hm⟩ := ih (fun r hr => hnum r (List.mem_cons_of_mem p hr)) ⟨q, hq, hqf⟩
          refine ⟨m, ?_⟩
          simp [convertRow, hv, hf, hm]

lemma convert_fail (cols : List String) :
    ∀ batch : List (List JsonValue), (∀ v ∈ batch, rowNums cols v = true) →
    (∃ v ∈ batch, rowDecodes cols v = false) →
    ∃ m, Convert cols batch = Except.error (ConvErr.decodeError m) := by
  intro batch
  induction batch with
  | nil => intro _ hex; simp at hex
  | cons values rest ih =>
    intro hnum hex
    have hv0 := hnum values (List.mem_cons_self values rest)
    unfold rowNums at hv0
    rw [Bool.and_eq_true] at hv0
    obtain ⟨h0, hallnum⟩ := hv0
    unfold isNumAt at h0
    match hv : values[0]? with
    | none => rw [hv] at h0; simp at h0
    | some (JsonValue.str s) => rw [hv] at h0; simp at h0
    | some (JsonValue.boolv b) => rw [hv] at h0; simp at h0
    | some JsonValue.nullv => rw [hv] at h0; simp at h0
    | some (JsonValue.num s) =>
      match ht : int64Parse s with
      | none =>
        refine ⟨s, ?_⟩
        simp [Convert, hv, ht]
      | some t =>
        by_cases hall : ((idxCols cols).all fun p => valDecodes values p.1) = true
        · have hrow : rowDecodes cols values = true := by
            simp [rowDecodes, tsDecodes, hv, ht, hall]
          have hcr := convertRow_ok t values (idxCols cols)
            (fun p hp => by simpa using List.all_eq_true.mp hall p hp)
          obtain ⟨v, hvmem, hvf⟩ := hex
          rcases List.mem_cons.mp hvmem with hvm | hvm
          · subst hvm; rw [hrow] at hvf; cases hvf
          · obtain ⟨m, hm⟩ := ih (fun u hu => hnum u (List.mem_cons_of_mem values hu)) ⟨v, hvm, hvf⟩
            refine ⟨m, ?_⟩
            simp [Convert, hv, ht, hcr, hm]
        · have hex2 : ∃ p ∈ idxCols cols, valDecodes values p.1 = false := by
            rw [List.all_eq_true] at hall
            push_neg at hall
            obtain ⟨p, hp, hpf⟩ := hall
            exact ⟨p, hp, by simpa using hpf⟩
          obtain ⟨m, hm⟩ := convertRow_fail t values (idxCols cols)
            (fun p hp => by simpa using List.all_eq_true.mp hallnum p hp) hex2
          refine ⟨m, ?_⟩
          simp [Convert, hv, ht, hm]

/-- Counterexample to claim C5 as stated: a batch whose first row's
timestamp element does not decode as numeric (it is a JSON string, not a
`json.Number`), yet `Convert` does not fail with a `DecodeError` — the
type assertion panics instead. -/
theorem convert_nonnumber_not_decode_error :
    Convert ["time", "x"] [[JsonValue.str "oops", JsonValue.num "1"]] =
      Except.error (ConvErr.panicked castMsg) ∧
    ∀ m, (Except.error (ConvErr.panicked castMsg) : Except ConvErr (List Point)) ≠
      Except.error (ConvErr.decodeError m) := by
  refine ⟨rfl, ?_⟩
  intro m h
  cases h

/-- Claim C5 (amended): for every batch whose inspected elements are all
`json.Number`s, if some row's timestamp or value element fails its
numeric parse then `Convert` fails with a `DecodeError` and returns no
points at all (no partial list). -/
theorem convert_decode_error_aborts (cols : List String) (batch : List (List JsonValue))
    (hnum : ∀ v ∈ batch, rowNums cols v = true)
    (hfail : ∃ v ∈ batch, rowDecodes cols v = false) :
    (∃ m, Convert cols batch = Except.error (ConvErr.decodeError m)) ∧
    ∀ pts, Convert cols batch ≠ Except.ok pts := by
  obtain ⟨m, hm⟩ := convert_fail cols batch hnum hfail
  refine ⟨⟨m, hm⟩, ?_⟩
  intro pts h
  rw [hm] at h
  cases h

/-- Witness for C5 (amended): a numeric but fractional timestamp token
aborts the whole two-row batch with a `DecodeError`. -/
theorem convert_decode_error_aborts_witness :
    (∃ m, Convert ["time", "x"]
        [[JsonValue.num "1.5", JsonValue.num "2"], [JsonValue.num "3", JsonValue.num "4"]] =
      Except.error (ConvErr.decodeError m)) ∧
    ∀ pts, Convert ["time", "x"]
        [[JsonValue.num "1.5", JsonValue.num "2"], [JsonValue.num "3", JsonValue.num "4"]] ≠
      Except.ok pts :=
  convert_decode_error_aborts ["time", "x"]
    [[JsonValue.num "1.5", JsonValue.num "2"], [JsonValue.num "3", JsonValue.num "4"]]
    (by decide) ⟨[JsonValue.num "1.5", JsonValue.num "2"], by decide, by decide⟩

lemma convert_ok_ts (cols : List String) :
    ∀ (batch : List (List JsonValue)) (pts : List Point), Convert cols batch = Except.ok pts →
    ∀ values ∈ batch, ∃ s t, values[0]? = some (JsonValue.num s) ∧ int64Parse s = some t := by
  intro batch
  induction batch with
  | nil => intro pts _ values hmem; simp at hmem
  | cons v rest ih =>
    intro pts h values hmem
    unfold Convert at h
    rcases List.mem_cons.mp hmem with hm | hm
    · subst hm
      split at h
      · cases h
      · rename_i s heqv
        split at h
        · cases h
        · rename_i t heqt
          exact ⟨s, t, heqv, heqt⟩
      · cases h
    · split at h
      · cases h
      · rename_i s heqv
        split at h
        · cases h
        · rename_i t heqt
          split at h
          · cases h
          · rename_i ps heqc
            split at h
            · cases h
            · rename_i qs heqr
              exact ih qs heqr values hm
      · cases h

lemma convert_panics_after_good_rows (cols : List String) :
    ∀ pre : List (List JsonValue), (∀ v ∈ pre, rowDecodes cols v = true) →
    ∀ (values : List JsonValue) (rest : List (List JsonValue)) (w : JsonValue),
    values[0]? = some w → (∀ s, w ≠ JsonValue.num s) →
    Convert cols (pre ++ values :: rest) = Except.error (ConvErr.panicked castMsg) := by
  intro pre
  induction pre with
  | nil =>
    intro _ values rest w hv hw
    match w with
    | JsonValue.num s => exact absurd rfl (hw s)
    | JsonValue.str s => simp [Convert, hv]
    | JsonValue.boolv b => simp [Convert, hv]
    | JsonValue.nullv => simp [Convert, hv]
  | cons u pre ih =>
    intro h values rest w hv hw
    have hu := h u (List.mem_cons_self u pre)
    have hrec := ih (fun v hvm => h v (List.mem_cons_of_mem u hvm)) values rest w hv hw
    unfold rowDecodes at hu
    rw [Bool.and_eq_true] at hu
    obtain ⟨hts, hall⟩ := hu
    unfold tsDecodes at hts
    match hu0 : u[0]? with
    | none => rw [hu0] at hts; simp at hts
    | some (JsonValue.str s) => rw [hu0] at hts; simp at hts
    | some (JsonValue.boolv b) => rw [hu0] at hts; simp at hts
    | some JsonValue.nullv => rw [hu0] at hts; simp at hts
    | some (JsonValue.num s) =>
      rw [hu0] at hts
      rw [Option.isSome_iff_exists] at hts
      obtain ⟨t, ht⟩ := hts
      have hcr := convertRow_ok t u (idxCols cols)
        (fun p hp => by simpa using List.all_eq_true.mp hall p hp)
      simp [Convert, hu0, ht, hcr, hrec]

/-- Claim C10: the timestamp decode of `Convert` requires row element 0
to be a `json.Number` holding an exact int64 integer.  A fractional
literal such as "1.5" fails the integer parse, and any row whose
element 0 is a `json.Number` failing that parse makes the whole batch
conversion fail; a row whose element 0 is present but not a `json.Number`
at all makes the type assertion panic (once processing reaches it, i.e.
after any prefix of fully-decoding rows) rather than return a
`DecodeError`. -/
theorem timestamp_decode_strict :
    int64Parse "1.5" = none ∧
    (∀ (cols : List String) (batch : List (List JsonValue)) (values : List JsonValue) (s : String),
      values ∈ batch → values[0]? = some (JsonValue.num s) → int64Parse s = none →
      ∀ pts, Convert cols batch ≠ Except.ok pts) ∧
    (∀ (cols : List String) (pre : List (List JsonValue)), (∀ v ∈ pre, rowDecodes cols v = true) →
      ∀ (values : List JsonValue) (rest : List (List JsonValue)) (w : JsonValue),
      values[0]? = some w → (∀ s, w ≠ JsonValue.num s) →
      Convert cols (pre ++ values :: rest) = Except.error (ConvErr.panicked castMsg) ∧
      ∀ m, (Except.error (ConvErr.panicked castMsg) : Except ConvErr (List Point)) ≠
        Except.error (ConvErr.decodeError m)) := by
  refine ⟨by decide, ?_, ?_⟩
  · intro cols batch values s hmem hv ht pts h
    obtain ⟨s2, t, hv2, ht2⟩ := convert_ok_ts cols batch pts h values hmem
    rw [hv] at hv2
    cases hv2
    rw [ht] at ht2
    cases ht2
  · intro cols pre hpre values rest w hv hw
    refine ⟨convert_panics_after_good_rows cols pre hpre values rest w hv hw, ?_⟩
    intro m h
    cases h

/-- Witness for C10: a fractional timestamp makes the concrete batch
unconvertible, and a string-typed timestamp panics after a decoding
first row. -/
theorem timestamp_decode_strict_witness :
    (∀ pts, Convert ["time", "x"] [[JsonValue.num "1.5", JsonValue.num "2"]] ≠ Except.ok pts) ∧
    (Convert ["time", "x"]
        [[JsonValue.num "7", JsonValue.num "2"], [JsonValue.str "bad", JsonValue.num "3"]] =
      Except.error (ConvErr.panicked castMsg) ∧
    ∀ m, (Except.error (ConvErr.panicked castMsg) : Except ConvErr (List Point)) ≠
      Except.error (ConvErr.decodeError m)) :=
  ⟨timestamp_decode_strict.2.1 ["time", "x"] [[JsonValue.num "1.5", JsonValue.num "2"]]
      [JsonValue.num "1.5", JsonValue.num "2"] "1.5" (by decide) (by decide) (by decide),
   timestamp_decode_strict.2.2 ["time", "x"] [[JsonValue.num "7", JsonValue.num "2"]]
      (by decide) [JsonValue.str "bad", JsonValue.num "3"] [] (JsonValue.str "bad")
      (by decide) (by intro s h; cases h)⟩

lemma runOnTable_readable (B : Nat) (cv : List (List JsonValue)) (cols : List String)
    (rows : List (List JsonValue)) (writeOk : Nat → Bool) (h : (countCell cv).isSome = true) :
    runOnTable B cv cols rows writeOk = runBatches cols writeOk 0 (splitBatches B rows) := by
  rw [Option.isSome_iff_exists] at h
  obtain ⟨x, hx⟩ := h
  simp [runOnTable, hx]

lemma runOnTable_panic (B : Nat) (cv : List (List JsonValue)) (cols : List String)
    (rows : List (List JsonValue)) (writeOk : Nat → Bool) (h : countCell cv = none) :
    runOnTable B cv cols rows writeOk = ⟨0, [], RunOutcome.panicked oorMsg⟩ := by
  simp [runOnTable, h]

lemma countCell_none_iff (cv : List (List JsonValue)) :
    countCell cv = none ↔ (cv = [] ∨ ∃ r rest, cv = r :: rest ∧ r.length < 2) := by
  cases cv with
  | nil => simp [countCell]
  | cons r rest =>
    simp only [countCell, List.getElem?_cons_zero]
    rw [List.getElem?_eq_none_iff]
    constructor
    · intro h
      exact Or.inr ⟨r, rest, rfl, by omega⟩
    · rintro (h | ⟨r2, rest2, heq, hlen⟩)
      · cases h
      · cases heq
        omega

lemma runBatches_fail_at (cols : List String) (writeOk : Nat → Bool) :
    ∀ (bs : List (List (List JsonValue))) (i0 k : Nat), k < bs.length →
    (∀ b ∈ bs, ∃ pts, Convert cols b = Except.ok pts) →
    (∀ j, j < k → writeOk (i0 + j) = true) → writeOk (i0 + k) = false →
    (runBatches cols writeOk i0 bs).convertCalls = k + 1 ∧
    (runBatches cols writeOk i0 bs).writeCalls.length = k + 1 ∧
    (runBatches cols writeOk i0 bs).outcome = RunOutcome.fatal "write error" := by
  intro bs
  induction bs with
  | nil => intro i0 k hk; simp at hk
  | cons b bs ih =>
    intro i0 k hk hconv hpre hfail
    obtain ⟨pts, hpts⟩ := hconv b (List.mem_cons_self b bs)
    match k with
    | 0 =>
      have hw : writeOk i0 = false := by simpa using hfail
      simp [runBatches, hpts, hw]
    | k + 1 =>
      have hw : writeOk i0 = true := by simpa using hpre 0 (Nat.succ_pos k)
      have hrec := ih (i0 + 1) k (by simpa using Nat.lt_of_succ_lt_succ hk)
        (fun c hc => hconv c (List.mem_cons_of_mem b hc))
        (fun j hj => by
          have h2 := hpre (j + 1) (Nat.succ_lt_succ hj)
          have h3 : i0 + 1 + j = i0 + (j + 1) := by omega
          rw [h3]
          exact h2)
        (by
          have h3 : i0 + 1 + k = i0 + (k + 1) := by omega
          rw [h3]
          exact hfail)
      simp only [runBatches, hpts, hw, if_true]
      exact ⟨by simp [hrec.1], by simp [hrec.2.1], by simp [hrec.2.2]⟩

/-- Counterexample to claim C3 as stated: with the default batch size and
an empty data result, the Write Sink IS invoked — once, with an empty
point list — because the chunking loop always appends the (empty)
remainder as a final batch and the batch loop converts and writes it. -/
theorem empty_run_invokes_sink :
    (runOnTable 10000 [[JsonValue.num "0", JsonValue.num "0"]] ["time"] []
      (fun _ => true)).writeCalls = [[]] ∧
    ([[]] : List (List Point)) ≠ [] := by
  refine ⟨rfl, ?_⟩
  intro h
  cases h

lemma runBatches_empty_batch (cols : List String) (writeOk : Nat → Bool)
    (hw : writeOk 0 = true) :
    runBatches cols writeOk 0 [[]] = ⟨1, [[]], RunOutcome.ok⟩ := by
  simp [runBatches, Convert, hw]

/-- Claim C3 (amended): when the data query returns zero rows, the
Batcher yields a single empty batch (so no non-empty batch), `Convert` is
invoked once on it producing zero points, the Write Sink is invoked
exactly once with an empty point list, and — provided the target store
accepts that empty write — the run completes successfully. -/
theorem empty_table_run (B : Nat) (cv : List (List JsonValue)) (cols : List String)
    (writeOk : Nat → Bool) (hcv : (countCell cv).isSome = true) (hw : writeOk 0 = true) :
    splitBatches B ([] : List (List JsonValue)) = [[]] ∧
    (∀ b ∈ splitBatches B ([] : List (List JsonValue)), b.length = 0) ∧
    runOnTable B cv cols [] writeOk = ⟨1, [[]], RunOutcome.ok⟩ := by
  refine ⟨splitBatches_nil B, ?_, ?_⟩
  · intro b hb
    rw [splitBatches_nil] at hb
    simp only [List.mem_singleton] at hb
    subst hb
    rfl
  · rw [runOnTable_readable B cv cols [] writeOk hcv, splitBatches_nil]
    exact runBatches_empty_batch cols writeOk hw

/-- Witness for C3 (amended) at batch size 2 and a concrete readable
count result. -/
theorem empty_table_run_witness :
    splitBatches 2 ([] : List (List JsonValue)) = [[]] ∧
    (∀ b ∈ splitBatches 2 ([] : List (List JsonValue)), b.length = 0) ∧
    runOnTable 2 [[JsonValue.num "0", JsonValue.num "0"]] ["time", "x"] []
      (fun _ => true) = ⟨1, [[]], RunOutcome.ok⟩ :=
  empty_table_run 2 [[JsonValue.num "0", JsonValue.num "0"]] ["time", "x"]
    (fun _ => true) (by decide) rfl

/-- Claim C7: if every row decodes and the Write Sink rejects write
number `i` (all earlier writes succeeding), the run aborts fatally right
there: `Convert` ran exactly `i + 1` times and the sink was invoked
exactly `i + 1` times — never for any batch after `i`. -/
theorem write_failure_aborts (B : Nat) (cv : List (List JsonValue)) (cols : List String)
    (rows : List (List JsonValue)) (writeOk : Nat → Bool) (i : Nat)
    (hcv : (countCell cv).isSome = true) (hB : 1 ≤ B)
    (hdec : ∀ v ∈ rows, rowDecodes cols v = true)
    (hi : i < (splitBatches B rows).length)
    (hpre : ∀ j, j < i → writeOk j = true) (hfail : writeOk i = false) :
    (runOnTable B cv cols rows writeOk).convertCalls = i + 1 ∧
    (runOnTable B cv cols rows writeOk).writeCalls.length = i + 1 ∧
    (runOnTable B cv cols rows writeOk).outcome = RunOutcome.fatal "write error" := by
  rw [runOnTable_readable B cv cols rows writeOk hcv]
  refine runBatches_fail_at cols writeOk (splitBatches B rows) 0 i hi ?_
    (by simpa using hpre) (by simpa using hfail)
  intro b hb
  refine ⟨specConvert cols b, convert_ok_eq cols b ?_⟩
  intro v hv
  exact hdec v (splitBatches_mem B rows b hb v hv)

/-- Witness for C7: three singleton batches, the sink failing on the
second (batch index 1); the run aborts with exactly two converts and two
writes. -/
theorem write_failure_aborts_witness :
    (runOnTable 1 [[JsonValue.num "0", JsonValue.num "3"]] ["time", "x"]
      [[JsonValue.num "1", JsonValue.num "10"], [JsonValue.num "2", JsonValue.num "20"],
       [JsonValue.num "3", JsonValue.num "30"]] (fun j => j == 0)).convertCalls = 1 + 1 ∧
    (runOnTable 1 [[JsonValue.num "0", JsonValue.num "3"]] ["time", "x"]
      [[JsonValue.num "1", JsonValue.num "10"], [JsonValue.num "2", JsonValue.num "20"],
       [JsonValue.num "3", JsonValue.num "30"]] (fun j => j == 0)).writeCalls.length = 1 + 1 ∧
    (runOnTable 1 [[JsonValue.num "0", JsonValue.num "3"]] ["time", "x"]
      [[JsonValue.num "1", JsonValue.num "10"], [JsonValue.num "2", JsonValue.num "20"],
       [JsonValue.num "3", JsonValue.num "30"]] (fun j => j == 0)).outcome =
      RunOutcome.fatal "write error" :=
  write_failure_aborts 1 [[JsonValue.num "0", JsonValue.num "3"]] ["time", "x"]
    [[JsonValue.num "1", JsonValue.num "10"], [JsonValue.num "2", JsonValue.num "20"],
     [JsonValue.num "3", JsonValue.num "30"]] (fun j => j == 0) 1
    (by decide) (by decide) (by decide) (by decide)
    (fun j hj => by simp [Nat.lt_one_iff.mp hj]) rfl

/-- Claim C8: given readable count results, the run is completely
independent of the reported count — two runs differing only in the count
response behave identically, and either equals plain batch processing of
the fetched rows; a count/row-count mismatch can never fail the run. -/
theorem count_advisory (B : Nat) (cv cv2 : List (List JsonValue)) (cols : List String)
    (rows : List (List JsonValue)) (writeOk : Nat → Bool)
    (h1 : (countCell cv).isSome = true) (h2 : (countCell cv2).isSome = true) :
    runOnTable B cv cols rows writeOk = runOnTable B cv2 cols rows writeOk ∧
    runOnTable B cv cols rows writeOk = runBatches cols writeOk 0 (splitBatches B rows) := by
  rw [runOnTable_readable B cv cols rows writeOk h1,
    runOnTable_readable B cv2 cols rows writeOk h2]
  exact ⟨rfl, rfl⟩

/-- Witness for C8: a reported count of 999 against a single fetched row
runs identically to a reported count of 1. -/
theorem count_advisory_witness :
    runOnTable 2 [[JsonValue.num "0", JsonValue.num "999"]] ["time", "x"]
      [[JsonValue.num "1", JsonValue.num "10"]] (fun _ => true) =
    runOnTable 2 [[JsonValue.num "0", JsonValue.num "1"]] ["time", "x"]
      [[JsonValue.num "1", JsonValue.num "10"]] (fun _ => true) ∧
    runOnTable 2 [[JsonValue.num "0", JsonValue.num "999"]] ["time", "x"]
      [[JsonValue.num "1", JsonValue.num "10"]] (fun _ => true) =
    runBatches ["time", "x"] (fun _ => true) 0
      (splitBatches 2 [[JsonValue.num "1", JsonValue.num "10"]]) :=
  count_advisory 2 [[JsonValue.num "0", JsonValue.num "999"]]
    [[JsonValue.num "0", JsonValue.num "1"]] ["time", "x"]
    [[JsonValue.num "1", JsonValue.num "10"]] (fun _ => true) (by decide) (by decide)

/-- Claim C9: `RunOnTable` reads the count result at row 0, element 1
unconditionally.  The cell is unreadable exactly when the count result
has no row or a first row of fewer than two values; in that case the run
is an immediate index-out-of-range panic (never a reported QueryError),
and with a readable cell the run proceeds past the count step into batch
processing. -/
theorem count_read_unconditional (B : Nat) (cv : List (List JsonValue)) (cols : List String)
    (rows : List (List JsonValue)) (writeOk : Nat → Bool) :
    (countCell cv = none ↔ (cv = [] ∨ ∃ r rest, cv = r :: rest ∧ r.length < 2)) ∧
    (countCell cv = none →
      runOnTable B cv cols rows writeOk = ⟨0, [], RunOutcome.panicked oorMsg⟩) ∧
    ((countCell cv).isSome = true →
      runOnTable B cv cols rows writeOk = runBatches cols writeOk 0 (splitBatches B rows)) :=
  ⟨countCell_none_iff cv,
   fun h => runOnTable_panic B cv cols rows writeOk h,
   fun h => runOnTable_readable B cv cols rows writeOk h⟩

/-- Witness for C9: a count result whose only row has a single element
panics the run. -/
theorem count_read_unconditional_witness :
    runOnTable 2 [[JsonValue.num "5"]] ["time", "x"]
      [[JsonValue.num "1", JsonValue.num "10"]] (fun _ => true) =
      ⟨0, [], RunOutcome.panicked oorMsg⟩ :=
  (count_read_unconditional 2 [[JsonValue.num "5"]] ["time", "x"]
    [[JsonValue.num "1", JsonValue.num "10"]] (fun _ => true)).2.1 rfl

/-- The single series carried by the two-result response below. -/
def demoSeries : SeriesData :=
  ⟨["time", "x"], [[JsonValue.num "1", JsonValue.num "2"]]⟩

/-- A response with TWO results, the first holding exactly one series:
the spec requires a `QueryError` here, but the code's shape check
(`len(Results) != 1 && len(Results[0].Series) != 1`) does not fire. -/
def twoResultsResp : Response :=
  ⟨[⟨[demoSeries], none⟩, ⟨[], none⟩], none⟩

/-- A response with exactly one result holding zero series. -/
def oneResultNoSeriesResp : Response :=
  ⟨[⟨[], none⟩], none⟩

/-- Claim C2 is violated by the code: the shape check joins its two
conditions with `&&` where the accompanying `log.Fatalf` message shows
`||` was intended.  On a response with two results whose first result has
exactly one series, `Query` returns that series successfully instead of
failing; and on a response with one result and zero series it panics with
an index-out-of-range instead of reporting anything. -/
theorem query_shape_check_bug :
    Query (Except.ok twoResultsResp) = QueryOutcome.ok demoSeries ∧
    (∀ m, QueryOutcome.ok demoSeries ≠ QueryOutcome.queryError m) ∧
    Query (Except.ok oneResultNoSeriesResp) = QueryOutcome.panicked oorMsg := by
  refine ⟨rfl, ?_, rfl⟩
  intro m h
  cases h

/-- The "inside" table's column list: the time column plus the five
renamed value columns of `insideQuery`. -/
def insideCols : List String :=
  ["time", "nest_leaf", "nest_humidity", "nest_heating",
   "nest_target_temp", "nest_current_temp"]

/-- Three concrete wide rows for the "inside" table (Unix-seconds
timestamp plus five numeric readings each). -/
def demoRows : List (List JsonValue) :=
  [[JsonValue.num "100", JsonValue.num "1", JsonValue.num "45",
    JsonValue.num "0", JsonValue.num "21", JsonValue.num "20.5"],
   [JsonValue.num "200", JsonValue.num "0", JsonValue.num "46",
    JsonValue.num "1", JsonValue.num "21", JsonValue.num "20.7"],
   [JsonValue.num "300", JsonValue.num "1", JsonValue.num "47",
    JsonValue.num "0", JsonValue.num "21", JsonValue.num "21.0"]]

/-- The run of `RunOnTable` on those three rows with batch size 2 and an
accepting target store. -/
def demoRun : TableRun :=
  runOnTable 2 [[JsonValue.num "0", JsonValue.num "3"]] insideCols demoRows (fun _ => true)

/-- Claim C6: on 3 rows of 5 value columns plus the time column with
batch size 2, the Batcher yields chunks of sizes [2, 1], the Row
Transformer yields 15 points in total whose `__name__` tags are drawn
from the five nest metric names, and the Write Sink is invoked exactly
twice, with 10 and then 5 points. -/
theorem run_inside_demo :
    (splitBatches 2 demoRows).map List.length = [2, 1] ∧
    demoRun.writeCalls.map List.length = [10, 5] ∧
    demoRun.writeCalls.length = 2 ∧
    demoRun.writeCalls.flatten.length = 15 ∧
    demoRun.outcome = RunOutcome.ok ∧
    ∀ p ∈ demoRun.writeCalls.flatten,
      List.lookup "__name__" p.tags ∈
        [some "nest_leaf", some "nest_humidity", some "nest_heating",
         some "nest_target_temp", some "nest_current_temp"] := by
  decide
